import Mathlib

/-!
Shallow embedding of the OpenSBI IMSIC irqchip driver
(`lib/utils/irqchip/imsic.c`) and proofs about it.

Conventions of the embedding:
* C `unsigned long` (XLEN-wide) values are modelled as `Nat` with explicit
  truncation `% 2^xlen` where the C code can overflow or wrap; `u32`
  intermediates are truncated `% 2^32`.
* The native word width `__riscv_xlen` / `BITS_PER_LONG` is a parameter
  `xlen` (32 or 64 in any real build); where an algorithm relies on the
  word width being a power of two (the `id & (__riscv_xlen - 1)` idiom) it
  is parameterised by the exponent `xk` with `xlen = 2 ^ xk` (`xk` is 5 on
  rv32 and 6 on rv64).
* A left shift `a << k` whose count can reach or exceed the word width is
  undefined behaviour in C; the embedding resolves it as the mathematical
  shift truncated to the word, `(a <<< k) % 2 ^ w`.
* MMIO and CSR side effects are made explicit: functions return the list
  of indirect-register accesses / doorbell writes they would issue.
-/

/-- `SBI_EINVAL` from `sbi_error.h` (the only error code the driver
returns from validation, binding and warm-init paths). -/
def SBI_EINVAL : Int := -3

/-- Modelled from the spec: the "not-found" error code (`SBI_ENOENT`),
used by `imsic_get_target_file` when no binding storage exists; the header
defining its numeric value is not part of the sources, the exact value is
immaterial to the claims. -/
def SBI_ENOENT : Int := -8

/-- `IMSIC_MIN_ID`. -/
def IMSIC_MIN_ID : Nat := 63

/-- `IMSIC_MAX_ID`. -/
def IMSIC_MAX_ID : Nat := 2047

/-- Modelled from the spec: the fixed per-window page size is the standard
4 KiB MMIO page, so `IMSIC_MMIO_PAGE_SHIFT = 12` (the header defining it
is not part of the sources). -/
def IMSIC_MMIO_PAGE_SHIFT : Nat := 12

/-- `IMSIC_MMIO_PAGE_SZ = 1 << IMSIC_MMIO_PAGE_SHIFT`. -/
def IMSIC_MMIO_PAGE_SZ : Nat := 2 ^ IMSIC_MMIO_PAGE_SHIFT

/-- `IMSIC_MMIO_PAGE_LE`: byte offset of the little-endian doorbell
register within a page. -/
def IMSIC_MMIO_PAGE_LE : Nat := 0x00

/-- Modelled from the spec: the register-window array has a fixed maximum
capacity (`IMSIC_MAX_REGS`, declared in a header that is not part of the
sources); the spec only requires a fixed bound, 16 is the value used by
the driver's header. -/
def IMSIC_MAX_REGS : Nat := 16

/-- `IMSIC_EIDELIVERY` indirect-register index. -/
def IMSIC_EIDELIVERY : Nat := 0x70

/-- `IMSIC_EITHRESHOLD` indirect-register index. -/
def IMSIC_EITHRESHOLD : Nat := 0x72

/-- `IMSIC_TOPEI_ID_SHIFT`: the claimed identity sits in the upper bits of
the TOPEI value. -/
def IMSIC_TOPEI_ID_SHIFT : Nat := 16

/-- `IMSIC_EIP0`: first pending-bit array register index. -/
def IMSIC_EIP0 : Nat := 0x80

/-- `IMSIC_EIE0`: first enable-bit array register index. -/
def IMSIC_EIE0 : Nat := 0xc0

/-- `IMSIC_EIPx_BITS = IMSIC_EIEx_BITS = 32`: the enable/pending arrays
are exposed at 32-bit granularity regardless of XLEN. -/
def IMSIC_EIPx_BITS : Nat := 32

/-- `IMSIC_IPI_ID`: the interrupt identity reserved for IPIs. -/
def IMSIC_IPI_ID : Nat := 1

/-- `IMSIC_ENABLE_EITHRESHOLD`. -/
def IMSIC_ENABLE_EITHRESHOLD : Nat := 0

/-- `IMSIC_ENABLE_EIDELIVERY`. -/
def IMSIC_ENABLE_EIDELIVERY : Nat := 1

/-- One register window: `struct imsic_regs { unsigned long addr, size; }`
(declared in the driver's header; fields as in the spec's
`register_windows` sequence of (base address, byte size)). -/
structure imsic_regs where
  addr : Nat
  size : Nat
deriving DecidableEq, Repr

/-- `struct imsic_data` (declared in the driver's header; fields exactly
as the spec's Controller Instance data model). The C `regs` field is a
fixed array of `IMSIC_MAX_REGS` entries; it is modelled as the list of its
entries, entries beyond the list being zero-initialised (`regAt`). -/
structure imsic_data where
  targets_mmode : Bool
  guest_index_bits : Nat
  hart_index_bits : Nat
  group_index_bits : Nat
  group_index_shift : Nat
  num_ids : Nat
  regs : List imsic_regs
deriving DecidableEq, Repr

/-- `imsic->regs[i]`: array indexing into the window array; entries beyond
the modelled list read as zero-initialised. -/
def regAt (rs : List imsic_regs) (i : Nat) : imsic_regs :=
  rs.getD i ⟨0, 0⟩

/-- `a - b` computed in 32-bit unsigned arithmetic (wraps at `2^32`). -/
def u32sub (a b : Nat) : Nat :=
  (a + (2 ^ 32 - b % 2 ^ 32)) % 2 ^ 32

/-- `a - 1` computed in `w`-bit unsigned arithmetic (wraps at `2^w`). -/
def usub1 (w a : Nat) : Nat :=
  (a + (2 ^ w - 1)) % 2 ^ w

/-- `a << k` truncated to `w` bits.  The guard avoids materialising the
astronomically large intermediate `a <<< k` for huge shift counts; the
value is the same as `(a <<< k) % 2 ^ w` (`ushl_eq`). -/
def ushl (w a k : Nat) : Nat :=
  if w ≤ k then 0 else (a <<< k) % 2 ^ w

/-- Bitwise complement within a `w`-bit word. -/
def unot (w a : Nat) : Nat :=
  2 ^ w - 1 - a % 2 ^ w

theorem ushl_eq (w a k : Nat) : ushl w a k = (a <<< k) % 2 ^ w := by
  unfold ushl
  split
  · next h =>
    rw [Nat.shiftLeft_eq]
    exact (Nat.mod_eq_zero_of_dvd ((pow_dvd_pow 2 h).mul_left a)).symm
  · rfl

/-- The masked base address computed by `imsic_data_check`: clear the low
`guest_index_bits + hart_index_bits + IMSIC_MMIO_PAGE_SHIFT` bits, then
clear the `group_index_bits`-wide field at `group_index_shift`:

    addr &= ~((1UL << (guest + hart + PAGE_SHIFT)) - 1);
    addr &= ~(((1UL << group_index_bits) - 1) << group_index_shift);
-/
def imsic_base_mask (xlen : Nat) (d : imsic_data) (a : Nat) : Nat :=
  (a &&& unot xlen (usub1 xlen (ushl xlen 1 (d.guest_index_bits +
      d.hart_index_bits + IMSIC_MMIO_PAGE_SHIFT)))) &&&
    unot xlen (ushl xlen (usub1 xlen (ushl xlen 1 d.group_index_bits))
      d.group_index_shift)

/-- The per-window size mask of `imsic_data_check`:
`mask = (1UL << guest_index_bits) * IMSIC_MMIO_PAGE_SZ; mask -= 1UL;`. -/
def imsic_guest_mask (xlen : Nat) (d : imsic_data) : Nat :=
  usub1 xlen (ushl xlen 1 d.guest_index_bits * IMSIC_MMIO_PAGE_SZ % 2 ^ xlen)

/-- The window-pattern loop of `imsic_data_check`:

    for (i = 0; i < IMSIC_MAX_REGS && imsic->regs[i].size; i++) {
        mask = (1UL << imsic->guest_index_bits) * IMSIC_MMIO_PAGE_SZ - 1;
        if (imsic->regs[i].size & mask) return SBI_EINVAL;
        addr = masked base of imsic->regs[i].addr;
        if (base_addr != addr) return SBI_EINVAL;
    }
    return 0;

modelled structurally on the list of array entries. -/
def imsic_check_regs_loop (xlen : Nat) (d : imsic_data) (base_addr : Nat) :
    Nat → List imsic_regs → Int
  | _, [] => 0
  | i, r :: rest =>
    if i < IMSIC_MAX_REGS ∧ r.size ≠ 0 then
      if r.size &&& imsic_guest_mask xlen d ≠ 0 then SBI_EINVAL
      else if imsic_base_mask xlen d r.addr ≠ base_addr then SBI_EINVAL
      else imsic_check_regs_loop xlen d base_addr (i + 1) rest
    else 0

/-- `imsic_data_check`, the Topology Validator.  `xlen` is
`BITS_PER_LONG`; a `none` argument models a NULL `imsic` pointer.  The
`u32 tmp` intermediates of the C code are truncated to 32 bits exactly
where the C code truncates them. -/
def imsic_data_check (xlen : Nat) (o : Option imsic_data) : Int :=
  match o with
  | none => SBI_EINVAL
  | some d =>
    if d.num_ids < IMSIC_MIN_ID ∨ IMSIC_MAX_ID < d.num_ids then SBI_EINVAL
    else if u32sub xlen IMSIC_MMIO_PAGE_SHIFT < d.guest_index_bits then
      SBI_EINVAL
    else if u32sub (u32sub xlen IMSIC_MMIO_PAGE_SHIFT) d.guest_index_bits <
        d.hart_index_bits then SBI_EINVAL
    else if u32sub (u32sub (u32sub xlen IMSIC_MMIO_PAGE_SHIFT)
        d.guest_index_bits) d.hart_index_bits < d.group_index_bits then
      SBI_EINVAL
    else if d.group_index_shift <
        (IMSIC_MMIO_PAGE_SHIFT + d.guest_index_bits + d.hart_index_bits) %
          2 ^ 32 then SBI_EINVAL
    else if xlen ≤ u32sub (d.group_index_bits + d.group_index_shift) 1 then
      SBI_EINVAL
    else if d.num_ids &&& IMSIC_MIN_ID ≠ IMSIC_MIN_ID then SBI_EINVAL
    else if (regAt d.regs 0).size = 0 then SBI_EINVAL
    else
      imsic_check_regs_loop xlen d
        (imsic_base_mask xlen d (regAt d.regs 0).addr) 0 d.regs

/-- One select-then-access operation on the indirect register file, as
issued by `imsic_local_eix_update`: `imsic_csr_set(isel, mask)` when
`val` is true, `imsic_csr_clear(isel, mask)` when `val` is false. -/
structure EixAccess where
  isel : Nat
  mask : Nat
  val : Bool
deriving DecidableEq, Repr

/-- The inner mask-building loop of `imsic_local_eix_update`:

    for (i = id & (__riscv_xlen - 1);
         (id < last_id) && (i < __riscv_xlen); i++) {
        ireg |= BIT(i);
        id++;
    }

returns the final `(ireg, id)`. -/
def eixInner (xlen last id i ireg : Nat) : Nat × Nat :=
  if _h : id < last ∧ i < xlen then
    eixInner xlen last (id + 1) (i + 1) (ireg ||| (1 <<< i))
  else (ireg, id)
termination_by xlen - i
decreasing_by omega

theorem eixInner_spec (xlen last : Nat) :
    ∀ m i id ireg, m = xlen - i →
      eixInner xlen last id i ireg =
        (ireg ||| ((2 ^ min (xlen - i) (last - id) - 1) <<< i),
          id + min (xlen - i) (last - id)) := by
  intro m
  induction m with
  | zero =>
    intro i id ireg hm
    rw [eixInner]
    have : ¬(id < last ∧ i < xlen) := by omega
    rw [dif_neg this]
    have : min (xlen - i) (last - id) = 0 := by omega
    simp [this]
  | succ m ih =>
    intro i id ireg hm
    rw [eixInner]
    by_cases hc : id < last ∧ i < xlen
    · rw [dif_pos hc]
      rw [ih (i + 1) (id + 1) (ireg ||| (1 <<< i)) (by omega)]
      have hk : min (xlen - (i + 1)) (last - (id + 1)) =
          min (xlen - i) (last - id) - 1 := by omega
      have hk1 : 1 ≤ min (xlen - i) (last - id) := by omega
      rw [hk, Prod.mk.injEq]
      refine ⟨?_, by omega⟩
      rw [Nat.or_assoc]
      congr 1
      apply Nat.eq_of_testBit_eq
      intro j
      simp only [Nat.testBit_or, Nat.testBit_shiftLeft,
        Nat.testBit_two_pow_sub_one]
      rw [Bool.eq_iff_iff]
      simp only [Bool.or_eq_true, Bool.and_eq_true, decide_eq_true_eq,
        ge_iff_le, Nat.testBit_one_eq_true_iff_self_eq_zero]
      omega
    · rw [dif_neg hc]
      have : min (xlen - i) (last - id) = 0 := by omega
      simp [this]

/-- Corollary of `eixInner_spec`: the inner loop advances `id` by
`min (xlen - i) (last - id)`. -/
theorem eixInner_snd (xlen last id i ireg : Nat) :
    (eixInner xlen last id i ireg).2 =
      id + min (xlen - i) (last - id) := by
  rw [eixInner_spec xlen last (xlen - i) i id ireg rfl]

/-- The outer `while (id < last_id)` loop of `imsic_local_eix_update`,
accumulating the select-then-access operations it issues:

    while (id < last_id) {
        isel = id / __riscv_xlen;
        isel *= __riscv_xlen / IMSIC_EIPx_BITS;
        isel += (pend) ? IMSIC_EIP0 : IMSIC_EIE0;
        ireg = 0;
        for (i = id & (__riscv_xlen - 1); ...) { ... }   // eixInner
        if (val) imsic_csr_set(isel, ireg);
        else     imsic_csr_clear(isel, ireg);
    }

`__riscv_xlen = 2 ^ xk`. -/
def eixGo (xk : Nat) (pend val : Bool) (last id : Nat) : List EixAccess :=
  if _h : id < last then
    ⟨id / 2 ^ xk * (2 ^ xk / IMSIC_EIPx_BITS) +
        (if pend then IMSIC_EIP0 else IMSIC_EIE0),
      (eixInner (2 ^ xk) last id (id &&& (2 ^ xk - 1)) 0).1, val⟩ ::
      eixGo xk pend val last
        (eixInner (2 ^ xk) last id (id &&& (2 ^ xk - 1)) 0).2
  else []
termination_by last - id
decreasing_by
  rw [eixInner_snd, Nat.and_pow_two_sub_one_eq_mod]
  have h1 : id % 2 ^ xk < 2 ^ xk := Nat.mod_lt _ (Nat.pos_pow_of_pos _ (by norm_num))
  omega

/-- `imsic_local_eix_update(base_id, num_id, pend, val)`: sets (`val`) or
clears (`!val`) the pending (`pend`) or enable (`!pend`) bits of the
`num_id` interrupt identities starting at `base_id`, returning the list of
select-then-access operations issued.  `__riscv_xlen = 2 ^ xk`.  The C
code computes `unsigned long last_id = base_id + num_id`, so the sum
wraps at `2 ^ XLEN = 2 ^ 2 ^ xk`; when it wraps, `last_id` falls at or
below `base_id` and the `while (id < last_id)` loop body never runs. -/
def imsic_local_eix_update (xk base_id num_id : Nat) (pend val : Bool) :
    List EixAccess :=
  eixGo xk pend val ((base_id + num_id) % 2 ^ 2 ^ xk) base_id

/-- One CSR-level side effect of local/warm initialization: either an
`imsic_csr_write(isel, v)` or a set/clear issued by
`imsic_local_eix_update`. -/
inductive RegOp where
  | write (isel v : Nat)
  | eix (a : EixAccess)
deriving DecidableEq, Repr

/-- `imsic_local_irqchip_init`: if the AIA CSRs are unavailable (the
probe of `CSR_MTOPI` traps, modelled by `smaia = false`) do nothing;
otherwise set the threshold, enable delivery and enable the IPI
identity's bit.  Returns the indirect-register operations issued. -/
def imsic_local_irqchip_init (xk : Nat) (smaia : Bool) : List RegOp :=
  if smaia then
    RegOp.write IMSIC_EITHRESHOLD IMSIC_ENABLE_EITHRESHOLD ::
      RegOp.write IMSIC_EIDELIVERY IMSIC_ENABLE_EIDELIVERY ::
      (imsic_local_eix_update xk IMSIC_IPI_ID 1 false true).map RegOp.eix
  else []

/-- `imsic_warm_irqchip_init`: `binding` is the result of
`imsic_get_data(current_hartindex())` (NULL modelled as `none`).  On the
sanity-check failure the function returns `SBI_EINVAL` having issued no
register operation; otherwise it disables all interrupts, clears the IPI
pending bit and runs the local init, returning 0 and the issued
operations. -/
def imsic_warm_irqchip_init (xk : Nat) (smaia : Bool)
    (binding : Option imsic_data) : Int × List RegOp :=
  match binding with
  | none => (SBI_EINVAL, [])
  | some imsic =>
    if ¬imsic.targets_mmode then (SBI_EINVAL, [])
    else
      (0, (imsic_local_eix_update xk 1 imsic.num_ids false false).map
            RegOp.eix ++
          (imsic_local_eix_update xk IMSIC_IPI_ID 1 true false).map
            RegOp.eix ++
          imsic_local_irqchip_init xk smaia)

/-- The Hart Binding Registry: the contents of the two per-hart scratch
slots (`imsic_ptr_offset` pointer slot, `imsic_file_offset` file slot),
indexed by hart.  Scratch memory is zero-initialised, so an unset pointer
slot reads as NULL (`none`). -/
structure ImsicRegState where
  ptrSlot : Nat → Option imsic_data
  fileSlot : Nat → Int

theorem ImsicRegState.ext {a b : ImsicRegState}
    (h1 : ∀ h, a.ptrSlot h = b.ptrSlot h)
    (h2 : ∀ h, a.fileSlot h = b.fileSlot h) : a = b := by
  cases a; cases b
  simp only [ImsicRegState.mk.injEq]
  exact ⟨funext h1, funext h2⟩

/-- `imsic_map_hartid_to_data(hartid, imsic, file)`.  `hasScratch`
models the collaborator map `sbi_hartid_to_scratch` (whether the hart has
per-hart scratch storage); `none` for `imsic` models a NULL pointer.
Returns the status and the updated registry. -/
def imsic_map_hartid_to_data (hasScratch : Nat → Bool)
    (st : ImsicRegState) (hartid : Nat) (imsic : Option imsic_data)
    (file : Int) : Int × ImsicRegState :=
  match imsic with
  | none => (SBI_EINVAL, st)
  | some d =>
    if ¬d.targets_mmode then (SBI_EINVAL, st)
    else if ¬hasScratch hartid then (0, st)
    else
      (0, { ptrSlot := fun h => if h = hartid then some d else st.ptrSlot h,
            fileSlot := fun h => if h = hartid then file else st.fileSlot h })

/-- `imsic_get_data(hartindex)`: NULL when the pointer slot was never
allocated (`ptrAllocated = false`), the hart has no scratch, or nothing
was recorded. -/
def imsic_get_data (ptrAllocated : Bool) (hasScratch : Nat → Bool)
    (st : ImsicRegState) (hartindex : Nat) : Option imsic_data :=
  if ¬ptrAllocated then none
  else if ¬hasScratch hartindex then none
  else st.ptrSlot hartindex

/-- `imsic_get_target_file(hartindex)`. -/
def imsic_get_target_file (fileAllocated : Bool) (hasScratch : Nat → Bool)
    (st : ImsicRegState) (hartindex : Nat) : Int :=
  if ¬fileAllocated then SBI_ENOENT
  else if ¬hasScratch hartindex then SBI_ENOENT
  else st.fileSlot hartindex

/-- The window-walk loop of `imsic_ipi_send`:

    regs = &data->regs[0];
    while (regs->size && (regs->size <= reloff)) {
        reloff -= regs->size;
        regs++;
    }

The array is modelled as the list of its entries; the result is the
remaining window list (the final `regs` cursor) and the residual offset.
In valid use the array holds a zero-size terminating entry, so the C
cursor never runs off the array; the `[]` result models exactly that
(never-reached) situation. -/
def windowWalk : List imsic_regs → Nat → List imsic_regs × Nat
  | [], reloff => ([], reloff)
  | r :: rest, reloff =>
    if r.size ≠ 0 ∧ r.size ≤ reloff then windowWalk rest (reloff - r.size)
    else (r :: rest, reloff)

/-- `imsic_ipi_send(hart_index)` after the scratch lookup: `dataOpt` is
the per-hart data pointer (NULL or absent scratch modelled as `none`),
`file` the recorded file index.  Returns the doorbell write
`(address, value)` issued via `writel_relaxed`, a 32-bit little-endian
store, or `none` when the call is a silent no-op.  Addresses are
unbounded naturals (no claim depends on wraparound of the address
arithmetic). -/
def imsic_ipi_send (dataOpt : Option imsic_data) (file : Nat) :
    Option (Nat × Nat) :=
  match dataOpt with
  | none => none
  | some data =>
    if ¬data.targets_mmode then none
    else
      let reloff := file * (1 <<< data.guest_index_bits) *
        IMSIC_MMIO_PAGE_SZ
      match windowWalk data.regs reloff with
      | ([], _) => none
      | (r :: _, reloff') =>
        if r.size ≠ 0 ∧ reloff' < r.size then
          some (r.addr + reloff' + IMSIC_MMIO_PAGE_LE, IMSIC_IPI_ID)
        else none

/-- What the dispatch loop does with one claimed identity. -/
inductive IrqEvent where
  | ipi
  | unhandled (id : Nat)
deriving DecidableEq, Repr

/-- `imsic_external_irqfn`: the claim loop.  The claim register
(`csr_swap(CSR_MTOPEI, 0)`) is modelled as the list of values successive
reads return (an exhausted list reads as 0, i.e. drained hardware).  For
each nonzero value the identity is the value shifted right by
`IMSIC_TOPEI_ID_SHIFT`; identity `IMSIC_IPI_ID` dispatches to
`sbi_ipi_process` (`IrqEvent.ipi`), anything else is logged as unhandled.
Returns the C return value and the dispatched events in order. -/
def imsic_external_irqfn : List Nat → Int × List IrqEvent
  | [] => (0, [])
  | v :: rest =>
    if v = 0 then (0, [])
    else
      ((imsic_external_irqfn rest).1,
        (if v >>> IMSIC_TOPEI_ID_SHIFT = IMSIC_IPI_ID then IrqEvent.ipi
          else IrqEvent.unhandled (v >>> IMSIC_TOPEI_ID_SHIFT)) ::
          (imsic_external_irqfn rest).2)

/-- One unfolding of the outer loop in closed form: when `id < last`, the
issued access selects the word register holding `id` and its mask covers
bits `id % xlen` through the end of the word or of the range, whichever
comes first. -/
theorem eixGo_cons (xk : Nat) (pend val : Bool) (last id : Nat)
    (h : id < last) :
    eixGo xk pend val last id =
      ⟨id / 2 ^ xk * (2 ^ xk / IMSIC_EIPx_BITS) +
          (if pend then IMSIC_EIP0 else IMSIC_EIE0),
        (2 ^ min (2 ^ xk - id % 2 ^ xk) (last - id) - 1) <<< (id % 2 ^ xk),
        val⟩ ::
        eixGo xk pend val last
          (id + min (2 ^ xk - id % 2 ^ xk) (last - id)) := by
  rw [eixGo, dif_pos h, eixInner_spec _ _ _ _ _ _ rfl]
  simp [Nat.and_pow_two_sub_one_eq_mod]

/-- The outer loop issues nothing once `id ≥ last`. -/
theorem eixGo_nil (xk : Nat) (pend val : Bool) (last id : Nat)
    (h : ¬id < last) : eixGo xk pend val last id = [] := by
  rw [eixGo, dif_neg h]

/-- `a` is the select-then-access operation whose register and mask bit
correspond to interrupt identity `n`, for the array selected by `pend`:
identity `n` lives in word `n / xlen` (register index
`n / xlen * (xlen / 32) + array base`) at bit `n % xlen`. -/
def eixCovers (xk : Nat) (pend : Bool) (n : Nat) (a : EixAccess) : Bool :=
  (a.isel == n / 2 ^ xk * (2 ^ xk / IMSIC_EIPx_BITS) +
      (if pend then IMSIC_EIP0 else IMSIC_EIE0)) &&
    a.mask.testBit (n % 2 ^ xk)

theorem div_mod_cover {X : Nat} (hX : 0 < X) {id n k : Nat}
    (hk : k ≤ X - id % X) :
    (n / X = id / X ∧ id % X ≤ n % X ∧ n % X < id % X + k) ↔
      id ≤ n ∧ n < id + k := by
  have hid : id / X * X + id % X = id := by
    rw [Nat.mul_comm]
    exact Nat.div_add_mod id X
  have hn : n / X * X + n % X = n := by
    rw [Nat.mul_comm]
    exact Nat.div_add_mod n X
  have hri : id % X < X := Nat.mod_lt _ hX
  have hrn : n % X < X := Nat.mod_lt _ hX
  constructor
  · rintro ⟨hq, h1, h2⟩
    rw [hq] at hn
    omega
  · rintro ⟨h1, h2⟩
    have hq : n / X = id / X := by
      apply Nat.div_eq_of_lt_le
      · calc id / X * X ≤ id := by omega
          _ ≤ n := h1
      · have hlt : n < id / X * X + X := by omega
        calc n < id / X * X + X := hlt
          _ = (id / X + 1) * X := by ring
    refine ⟨hq, ?_, ?_⟩ <;> (rw [hq] at hn; omega)

theorem eixCovers_chunk (xk : Nat) (hxk : 5 ≤ xk) (pend : Bool) (val : Bool)
    (id n k : Nat) (hk : k ≤ 2 ^ xk - id % 2 ^ xk) :
    (eixCovers xk pend n
        ⟨id / 2 ^ xk * (2 ^ xk / IMSIC_EIPx_BITS) +
            (if pend then IMSIC_EIP0 else IMSIC_EIE0),
          (2 ^ k - 1) <<< (id % 2 ^ xk), val⟩ = true) ↔
      id ≤ n ∧ n < id + k := by
  have hX : 0 < 2 ^ xk := Nat.pos_pow_of_pos _ (by norm_num)
  have hC : 0 < 2 ^ xk / IMSIC_EIPx_BITS := by
    rw [IMSIC_EIPx_BITS]
    apply Nat.div_pos ?_ (by norm_num)
    calc (32 : Nat) = 2 ^ 5 := by norm_num
      _ ≤ 2 ^ xk := Nat.pow_le_pow_right (by norm_num) hxk
  rw [← div_mod_cover hX hk]
  simp only [eixCovers, Bool.and_eq_true, beq_iff_eq, Nat.testBit_shiftLeft,
    Nat.testBit_two_pow_sub_one, ge_iff_le, decide_eq_true_eq]
  constructor
  · rintro ⟨h1, h2, h3⟩
    have hdiv : id / 2 ^ xk = n / 2 ^ xk :=
      Nat.eq_of_mul_eq_mul_right hC (by omega)
    exact ⟨hdiv.symm, h2, by omega⟩
  · rintro ⟨h1, h2, h3⟩
    exact ⟨by rw [h1], h2, by omega⟩

/-- Coverage invariant of the outer loop: over the identities `n`, the
accesses issued from cursor `id` hit exactly the identities in
`[id, last)`, each in exactly one access. -/
theorem eixGo_countP (xk : Nat) (hxk : 5 ≤ xk) (pend val : Bool)
    (last : Nat) :
    ∀ fuel id, last - id ≤ fuel → ∀ n,
      (eixGo xk pend val last id).countP (eixCovers xk pend n) =
        if id ≤ n ∧ n < last then 1 else 0 := by
  intro fuel
  induction fuel with
  | zero =>
    intro id hf n
    rw [eixGo_nil _ _ _ _ _ (by omega), List.countP_nil,
      if_neg (by omega)]
  | succ fuel ih =>
    intro id hf n
    by_cases h : id < last
    · rw [eixGo_cons _ _ _ _ _ h, List.countP_cons]
      have hX : 0 < 2 ^ xk := Nat.pos_pow_of_pos _ (by norm_num)
      have hmod : id % 2 ^ xk < 2 ^ xk := Nat.mod_lt _ hX
      set k := min (2 ^ xk - id % 2 ^ xk) (last - id) with hkdef
      have hk1 : 1 ≤ k := by omega
      have hkle : k ≤ 2 ^ xk - id % 2 ^ xk := min_le_left _ _
      have hkra : k ≤ last - id := min_le_right _ _
      rw [ih (id + k) (by omega) n]
      simp only [eixCovers_chunk xk hxk pend val id n k hkle]
      split_ifs <;> omega
    · rw [eixGo_nil _ _ _ _ _ h, List.countP_nil, if_neg (by omega)]

/-- Every access issued by the outer loop has a nonzero mask that fits in
one native word. -/
theorem eixGo_mask_bounds (xk : Nat) (pend val : Bool) (last : Nat) :
    ∀ fuel id, last - id ≤ fuel →
      ∀ a ∈ eixGo xk pend val last id, a.mask ≠ 0 ∧ a.mask < 2 ^ 2 ^ xk := by
  intro fuel
  induction fuel with
  | zero =>
    intro id hf a ha
    rw [eixGo_nil _ _ _ _ _ (by omega)] at ha
    simp at ha
  | succ fuel ih =>
    intro id hf a ha
    by_cases h : id < last
    · rw [eixGo_cons _ _ _ _ _ h] at ha
      have hX : 0 < 2 ^ xk := Nat.pos_pow_of_pos _ (by norm_num)
      have hmod : id % 2 ^ xk < 2 ^ xk := Nat.mod_lt _ hX
      set k := min (2 ^ xk - id % 2 ^ xk) (last - id) with hkdef
      have hk1 : 1 ≤ k := by omega
      have hkle : k ≤ 2 ^ xk - id % 2 ^ xk := min_le_left _ _
      rcases List.mem_cons.1 ha with ha | ha
      · rw [ha]
        simp only [Nat.shiftLeft_eq]
        have h2k : 1 ≤ 2 ^ k - 1 := by
          have := Nat.one_lt_two_pow_iff.2 (show k ≠ 0 by omega)
          omega
        have hr : 0 < 2 ^ (id % 2 ^ xk) := Nat.pos_pow_of_pos _ (by norm_num)
        constructor
        · exact Nat.ne_of_gt (Nat.mul_pos (by omega) hr)
        · calc (2 ^ k - 1) * 2 ^ (id % 2 ^ xk)
              < 2 ^ k * 2 ^ (id % 2 ^ xk) := by
                exact Nat.mul_lt_mul_of_lt_of_le (by omega) (le_refl _)
                  hr
            _ = 2 ^ (k + id % 2 ^ xk) := by rw [Nat.pow_add]
            _ ≤ 2 ^ 2 ^ xk := Nat.pow_le_pow_right (by norm_num) (by omega)
      · exact ih (id + k) (by omega) a ha
    · rw [eixGo_nil _ _ _ _ _ h] at ha
      simp at ha

theorem imsic_check_regs_loop_cases (xlen : Nat) (d : imsic_data)
    (base_addr : Nat) :
    ∀ rs i, imsic_check_regs_loop xlen d base_addr i rs = 0 ∨
      imsic_check_regs_loop xlen d base_addr i rs = SBI_EINVAL := by
  intro rs
  induction rs with
  | nil => intro i; left; rfl
  | cons r rest ih =>
    intro i
    simp only [imsic_check_regs_loop]
    split_ifs
    · right; rfl
    · right; rfl
    · exact ih (i + 1)
    · left; rfl

/-- The validator returns either success or `SBI_EINVAL`, nothing else. -/
theorem imsic_data_check_cases (xlen : Nat) (o : Option imsic_data) :
    imsic_data_check xlen o = 0 ∨ imsic_data_check xlen o = SBI_EINVAL := by
  match o with
  | none => right; rfl
  | some d =>
    simp only [imsic_data_check]
    split_ifs
    · right; rfl
    · right; rfl
    · right; rfl
    · right; rfl
    · right; rfl
    · right; rfl
    · right; rfl
    · right; rfl
    · exact imsic_check_regs_loop_cases xlen d _ d.regs 0

/-- A successful validation forces `num_ids ∈ [63, 2047]` and
`num_ids ≡ 63 (mod 64)`. -/
theorem imsic_data_check_num_conditions (xlen : Nat) (d : imsic_data)
    (h0 : imsic_data_check xlen (some d) = 0) :
    63 ≤ d.num_ids ∧ d.num_ids ≤ 2047 ∧ d.num_ids % 64 = 63 := by
  simp only [imsic_data_check, IMSIC_MIN_ID, IMSIC_MAX_ID] at h0
  split_ifs at h0 with h1 h2 h3 h4 h5 h6 h7 h8
  all_goals try exact absurd h0 (by decide)
  push_neg at h1
  have h7' : d.num_ids % 64 = 63 := by
    rw [not_not] at h7
    rw [show (63 : Nat) = 2 ^ 6 - 1 from rfl,
      Nat.and_pow_two_sub_one_eq_mod] at h7
    norm_num at h7
    exact h7
  exact ⟨h1.1, h1.2, h7'⟩

/-- The spec's canonical instance (`guest_index_bits = hart_index_bits =
group_index_bits = 0`, `group_index_shift = 24`, `num_ids = 63`, one
window of page-aligned size) validates successfully on a 64-bit build. -/
theorem imsic_data_check_canonical (base size : Nat) (hsz : size ≠ 0)
    (hmul : size % 4096 = 0) :
    imsic_data_check 64
      (some ⟨true, 0, 0, 0, 24, 63, [⟨base, size⟩]⟩) = 0 := by
  have hand : size &&& 4095 = 0 := by
    rw [show (4095 : Nat) = 2 ^ 12 - 1 from rfl,
      Nat.and_pow_two_sub_one_eq_mod]
    simpa using hmul
  have hm : imsic_guest_mask 64 ⟨true, 0, 0, 0, 24, 63, [⟨base, size⟩]⟩ =
      4095 := by
    norm_num [imsic_guest_mask, usub1, ushl, IMSIC_MMIO_PAGE_SZ,
      IMSIC_MMIO_PAGE_SHIFT]
  simp only [imsic_data_check, IMSIC_MIN_ID, IMSIC_MAX_ID,
    IMSIC_MMIO_PAGE_SHIFT, regAt]
  rw [if_neg (by norm_num), if_neg (by norm_num [u32sub]),
    if_neg (by norm_num [u32sub]), if_neg (by norm_num [u32sub]),
    if_neg (by norm_num), if_neg (by norm_num [u32sub]),
    if_neg (by norm_num), if_neg (by simpa using hsz)]
  simp only [imsic_check_regs_loop, IMSIC_MAX_REGS, hm]
  rw [if_pos ⟨by norm_num, by simpa using hsz⟩]
  rw [if_neg (by simpa using hand), if_neg (by simp)]

/-- C1.  For every controller instance whose `num_identities` is not
congruent to 63 mod 64 or lies outside `[63, 2047]`, `imsic_data_check`
returns the invalid-configuration error (`SBI_EINVAL`, the code the driver
uses for invalid configurations); and the canonical instance with
`guest_index_bits = 0`, `hart_index_bits = 0`, `group_index_bits = 0`,
`group_index_shift = 24`, `num_identities = 63` and exactly one
nonzero-size register window whose size is a multiple of the page size
validates successfully. -/
theorem imsic_data_check_num_ids_and_canonical (xlen : Nat)
    (d : imsic_data)
    (hbad : d.num_ids % 64 ≠ 63 ∨ d.num_ids < 63 ∨ 2047 < d.num_ids)
    (base size : Nat) (hsz : size ≠ 0) (hmul : size % 4096 = 0) :
    imsic_data_check xlen (some d) = SBI_EINVAL ∧
      imsic_data_check 64
        (some ⟨true, 0, 0, 0, 24, 63, [⟨base, size⟩]⟩) = 0 := by
  refine ⟨?_, imsic_data_check_canonical base size hsz hmul⟩
  rcases imsic_data_check_cases xlen (some d) with h | h
  · have := imsic_data_check_num_conditions xlen d h
    omega
  · exact h

/-- Witness for C1: `num_ids = 64` is rejected, and the canonical
instance with a 4096-byte window at `0x28000000` is accepted. -/
theorem imsic_data_check_num_ids_and_canonical_witness :
    ((64 : Nat) % 64 ≠ 63 ∨ (64 : Nat) < 63 ∨ 2047 < (64 : Nat)) ∧
      (4096 : Nat) ≠ 0 ∧ (4096 : Nat) % 4096 = 0 ∧
      (imsic_data_check 64
          (some ⟨true, 0, 0, 0, 24, 64, [⟨0, 4096⟩]⟩) = SBI_EINVAL ∧
        imsic_data_check 64
          (some ⟨true, 0, 0, 0, 24, 63, [⟨0x28000000, 4096⟩]⟩) = 0) :=
  ⟨by decide, by decide, by decide,
    imsic_data_check_num_ids_and_canonical 64
      ⟨true, 0, 0, 0, 24, 64, [⟨0, 4096⟩]⟩ (by decide)
      0x28000000 4096 (by decide) (by decide)⟩

/-- C2.  On a 32-bit-word architecture (`__riscv_xlen = 2 ^ 5`), the
batch update `imsic_local_eix_update(base_id = 62, num_id = 3)` issues
exactly two select-then-access operations: the first on the register
covering identities 62 and 63 (array base + 1) with a mask having exactly
bits 30 and 31 set, the second on the register covering identity 64
(array base + 2) with a mask having exactly bit 0 set; and for every
`base_id`, a call with count 0 issues zero register accesses. -/
theorem imsic_local_eix_update_62_3 :
    (∀ pend val : Bool,
      imsic_local_eix_update 5 62 3 pend val =
        [⟨(if pend then IMSIC_EIP0 else IMSIC_EIE0) + 1, 0xC0000000, val⟩,
          ⟨(if pend then IMSIC_EIP0 else IMSIC_EIE0) + 2, 0x1, val⟩]) ∧
    (∀ base_id : Nat, ∀ pend val : Bool,
      imsic_local_eix_update 5 base_id 0 pend val = []) := by
  constructor
  · intro pend val
    have hlast : (62 + 3) % 2 ^ 2 ^ 5 = 65 := by norm_num
    rw [imsic_local_eix_update, hlast, eixGo_cons _ _ _ _ _ (by norm_num),
      eixGo_cons _ _ _ _ _ (by norm_num), eixGo_nil _ _ _ _ _ (by norm_num)]
    cases pend <;>
      norm_num [IMSIC_EIE0, IMSIC_EIP0, IMSIC_EIPx_BITS, Nat.shiftLeft_eq]
  · intro base_id pend val
    have hle : (base_id + 0) % 2 ^ 2 ^ 5 ≤ base_id :=
      le_trans (Nat.mod_le _ _) (by omega)
    exact eixGo_nil _ _ _ _ _ (by omega)

/-- C3.  Warm initialization on a hart with no recorded binding
(`imsic_get_data` returns NULL) or whose bound controller does not target
M-mode returns the invalid-state error (`SBI_EINVAL`, the code the
driver returns on this sanity check) and issues no indirect-register
access whatsoever. -/
theorem imsic_warm_irqchip_init_unbound (xk : Nat) (smaia : Bool)
    (binding : Option imsic_data)
    (h : binding = none ∨
      ∃ d, binding = some d ∧ d.targets_mmode = false) :
    imsic_warm_irqchip_init xk smaia binding = (SBI_EINVAL, []) := by
  rcases h with h | ⟨d, h, hm⟩
  · rw [h]
    rfl
  · rw [h]
    simp [imsic_warm_irqchip_init, hm]

/-- Witness for C3: an unbound hart (binding `none`) on an rv64 build
with AIA available. -/
theorem imsic_warm_irqchip_init_unbound_witness :
    imsic_warm_irqchip_init 6 true none = (SBI_EINVAL, []) :=
  imsic_warm_irqchip_init_unbound 6 true none (Or.inl rfl)

/-- C4.  IPI send computes
`reloff = file_index * (1 << guest_index_bits) * IMSIC_MMIO_PAGE_SZ` and
walks the register windows in order, subtracting each window's size while
`reloff` is at least that size (third and fourth conjuncts); for a bound
M-mode controller with two windows of sizes 4096 and 8192,
`file_index = 1` and `guest_index_bits = 0`, the walk stops at the second
window with local offset 0, and the doorbell write is the 32-bit
little-endian store of the IPI identity value 1 at
`window.base + reloff + IMSIC_MMIO_PAGE_LE` (first and second
conjuncts). -/
theorem imsic_ipi_send_offset_resolution (b1 b2 : Nat)
    (hb gb gs n : Nat) :
    (imsic_ipi_send
        (some ⟨true, 0, hb, gb, gs, n, [⟨b1, 4096⟩, ⟨b2, 8192⟩]⟩) 1 =
      some (b2 + 0 + IMSIC_MMIO_PAGE_LE, IMSIC_IPI_ID)) ∧
    (windowWalk [⟨b1, 4096⟩, ⟨b2, 8192⟩]
        (1 * (1 <<< 0) * IMSIC_MMIO_PAGE_SZ) = ([⟨b2, 8192⟩], 0)) ∧
    (∀ (w : imsic_regs) (ws : List imsic_regs) (r : Nat),
      w.size ≠ 0 → w.size ≤ r →
      windowWalk (w :: ws) r = windowWalk ws (r - w.size)) ∧
    (∀ (w : imsic_regs) (ws : List imsic_regs) (r : Nat),
      ¬(w.size ≠ 0 ∧ w.size ≤ r) → windowWalk (w :: ws) r = (w :: ws, r)) := by
  refine ⟨?_, ?_, ?_, ?_⟩
  · simp [imsic_ipi_send, windowWalk, IMSIC_MMIO_PAGE_SZ,
      IMSIC_MMIO_PAGE_SHIFT, IMSIC_MMIO_PAGE_LE, IMSIC_IPI_ID]
  · simp [windowWalk, IMSIC_MMIO_PAGE_SZ, IMSIC_MMIO_PAGE_SHIFT]
  · intro w ws r h1 h2
    rw [windowWalk, if_pos ⟨h1, h2⟩]
  · intro w ws r h
    rw [windowWalk, if_neg h]

/-- Witness for C4: concrete windows at `0xA000`/`0xB000`; one
subtraction step of the walk on a window of size 4096 with offset 5000. -/
theorem imsic_ipi_send_offset_resolution_witness :
    (imsic_ipi_send
        (some ⟨true, 0, 0, 0, 24, 63, [⟨0xA000, 4096⟩, ⟨0xB000, 8192⟩]⟩)
        1 = some (0xB000 + 0 + IMSIC_MMIO_PAGE_LE, IMSIC_IPI_ID)) ∧
      (4096 : Nat) ≠ 0 ∧ (4096 : Nat) ≤ 5000 ∧
      windowWalk [⟨0xA000, 4096⟩] 5000 = windowWalk [] (5000 - 4096) :=
  ⟨(imsic_ipi_send_offset_resolution 0xA000 0xB000 0 0 24 63).1,
    by decide, by decide,
    (imsic_ipi_send_offset_resolution 0xA000 0xB000 0 0 24 63).2.2.1
      ⟨0xA000, 4096⟩ [] 5000 (by decide) (by decide)⟩

/-- C6.  The claim loop: the read sequence `0x10001, 0` causes exactly
one dispatch, of identity 1 to the IPI collaborator, then loop exit; and
for every read sequence, the function returns 0 (never an error), each
nonzero claimed value has its identity extracted from the upper bits
(shift by `IMSIC_TOPEI_ID_SHIFT`), identity 1 dispatches to the IPI
collaborator, and every other identity produces an unhandled-IRQ log
event without stopping the loop. -/
theorem imsic_external_irqfn_dispatch :
    imsic_external_irqfn [0x10001, 0] = (0, [IrqEvent.ipi]) ∧
    ∀ reads : List Nat,
      (imsic_external_irqfn reads).1 = 0 ∧
      (imsic_external_irqfn reads).2 =
        (reads.takeWhile (fun v => v != 0)).map
          (fun v =>
            if v >>> IMSIC_TOPEI_ID_SHIFT = IMSIC_IPI_ID then IrqEvent.ipi
            else IrqEvent.unhandled (v >>> IMSIC_TOPEI_ID_SHIFT)) := by
  refine ⟨by decide, ?_⟩
  intro reads
  induction reads with
  | nil => exact ⟨rfl, rfl⟩
  | cons v rest ih =>
    by_cases hv : v = 0
    · subst hv
      simp [imsic_external_irqfn, List.takeWhile_cons]
    · simp [imsic_external_irqfn, hv, List.takeWhile_cons, ih.1, ih.2]

/-- C7.  `imsic_map_hartid_to_data` returns the invalid-argument error
(`SBI_EINVAL`) exactly when the controller reference is NULL or its
`targets_mmode` flag is false (first and second conjuncts, together with
the success results of the remaining conjuncts); with a valid controller
but no per-hart scratch it succeeds as a no-op (third conjunct);
otherwise it records the (controller, file) association for that hart,
touches no other hart's slots, and succeeds (fourth conjunct). -/
theorem imsic_map_hartid_to_data_contract (hs : Nat → Bool)
    (st : ImsicRegState) (hartid : Nat) (file : Int) :
    (imsic_map_hartid_to_data hs st hartid none file = (SBI_EINVAL, st)) ∧
    (∀ d : imsic_data, d.targets_mmode = false →
      imsic_map_hartid_to_data hs st hartid (some d) file =
        (SBI_EINVAL, st)) ∧
    (∀ d : imsic_data, d.targets_mmode = true → hs hartid = false →
      imsic_map_hartid_to_data hs st hartid (some d) file = (0, st)) ∧
    (∀ d : imsic_data, d.targets_mmode = true → hs hartid = true →
      (imsic_map_hartid_to_data hs st hartid (some d) file).1 = 0 ∧
      (imsic_map_hartid_to_data hs st hartid (some d) file).2.ptrSlot
          hartid = some d ∧
      (imsic_map_hartid_to_data hs st hartid (some d) file).2.fileSlot
          hartid = file ∧
      ∀ h2, h2 ≠ hartid →
        (imsic_map_hartid_to_data hs st hartid (some d) file).2.ptrSlot
            h2 = st.ptrSlot h2 ∧
        (imsic_map_hartid_to_data hs st hartid (some d) file).2.fileSlot
            h2 = st.fileSlot h2) := by
  refine ⟨rfl, ?_, ?_, ?_⟩
  · intro d hm
    simp [imsic_map_hartid_to_data, hm]
  · intro d hm hsh
    simp [imsic_map_hartid_to_data, hm, hsh]
  · intro d hm hsh
    refine ⟨by simp [imsic_map_hartid_to_data, hm, hsh], ?_, ?_, ?_⟩
    · simp [imsic_map_hartid_to_data, hm, hsh]
    · simp [imsic_map_hartid_to_data, hm, hsh]
    · intro h2 hne
      constructor <;> simp [imsic_map_hartid_to_data, hm, hsh, hne]

/-- Witness for C7: hart 0 with scratch everywhere, a valid M-mode
controller, file 2; hart 1's slots are untouched. -/
theorem imsic_map_hartid_to_data_contract_witness :
    (imsic_map_hartid_to_data (fun _ => true)
        ⟨fun _ => none, fun _ => 0⟩ 0 none 2 =
      (SBI_EINVAL, ⟨fun _ => none, fun _ => 0⟩)) ∧
      ((⟨true, 0, 0, 0, 24, 63, [⟨0, 4096⟩]⟩ :
          imsic_data).targets_mmode = true) ∧
      ((fun _ => true) 0 = true) ∧
      (imsic_map_hartid_to_data (fun _ => true)
          ⟨fun _ => none, fun _ => 0⟩ 0
          (some ⟨true, 0, 0, 0, 24, 63, [⟨0, 4096⟩]⟩) 2).1 = 0 ∧
      (imsic_map_hartid_to_data (fun _ => true)
          ⟨fun _ => none, fun _ => 0⟩ 0
          (some ⟨true, 0, 0, 0, 24, 63, [⟨0, 4096⟩]⟩) 2).2.ptrSlot 0 =
        some ⟨true, 0, 0, 0, 24, 63, [⟨0, 4096⟩]⟩ ∧
      (imsic_map_hartid_to_data (fun _ => true)
          ⟨fun _ => none, fun _ => 0⟩ 0
          (some ⟨true, 0, 0, 0, 24, 63, [⟨0, 4096⟩]⟩) 2).2.fileSlot 0 =
        2 ∧
      (imsic_map_hartid_to_data (fun _ => true)
          ⟨fun _ => none, fun _ => 0⟩ 0
          (some ⟨true, 0, 0, 0, 24, 63, [⟨0, 4096⟩]⟩) 2).2.ptrSlot 1 =
        none :=
  ⟨(imsic_map_hartid_to_data_contract (fun _ => true)
      ⟨fun _ => none, fun _ => 0⟩ 0 2).1,
    rfl, rfl,
    ((imsic_map_hartid_to_data_contract (fun _ => true)
        ⟨fun _ => none, fun _ => 0⟩ 0 2).2.2.2
      ⟨true, 0, 0, 0, 24, 63, [⟨0, 4096⟩]⟩ rfl rfl).1,
    ((imsic_map_hartid_to_data_contract (fun _ => true)
        ⟨fun _ => none, fun _ => 0⟩ 0 2).2.2.2
      ⟨true, 0, 0, 0, 24, 63, [⟨0, 4096⟩]⟩ rfl rfl).2.1,
    ((imsic_map_hartid_to_data_contract (fun _ => true)
        ⟨fun _ => none, fun _ => 0⟩ 0 2).2.2.2
      ⟨true, 0, 0, 0, 24, 63, [⟨0, 4096⟩]⟩ rfl rfl).2.2.1,
    (((imsic_map_hartid_to_data_contract (fun _ => true)
        ⟨fun _ => none, fun _ => 0⟩ 0 2).2.2.2
      ⟨true, 0, 0, 0, 24, 63, [⟨0, 4096⟩]⟩ rfl rfl).2.2.2 1
      (by decide)).1⟩

/-- C8.  Binding is idempotent: a second identical `bind` call leaves the
registry in the same state (and returns the same status) as a single
call, so both lookups agree between the two runs, for every hart,
controller reference and file index. -/
theorem imsic_map_hartid_to_data_idempotent (hs : Nat → Bool)
    (st : ImsicRegState) (hartid : Nat) (imsic : Option imsic_data)
    (file : Int) :
    imsic_map_hartid_to_data hs
        (imsic_map_hartid_to_data hs st hartid imsic file).2 hartid imsic
        file =
      imsic_map_hartid_to_data hs st hartid imsic file ∧
    (∀ pa : Bool, ∀ q : Nat,
      imsic_get_data pa hs
          (imsic_map_hartid_to_data hs
            (imsic_map_hartid_to_data hs st hartid imsic file).2 hartid
            imsic file).2 q =
        imsic_get_data pa hs
          (imsic_map_hartid_to_data hs st hartid imsic file).2 q) ∧
    (∀ fa : Bool, ∀ q : Nat,
      imsic_get_target_file fa hs
          (imsic_map_hartid_to_data hs
            (imsic_map_hartid_to_data hs st hartid imsic file).2 hartid
            imsic file).2 q =
        imsic_get_target_file fa hs
          (imsic_map_hartid_to_data hs st hartid imsic file).2 q) := by
  have hmain :
      imsic_map_hartid_to_data hs
          (imsic_map_hartid_to_data hs st hartid imsic file).2 hartid
          imsic file =
        imsic_map_hartid_to_data hs st hartid imsic file := by
    match imsic with
    | none => rfl
    | some d =>
      by_cases hm : d.targets_mmode
      · by_cases hsh : hs hartid
        · simp only [imsic_map_hartid_to_data, hm, hsh, not_true,
            Bool.not_eq_true, if_neg, Bool.false_eq_true, if_false]
          congr 1
          apply ImsicRegState.ext <;> intro h2 <;>
            by_cases h2 = hartid <;> simp [*]
        · simp [imsic_map_hartid_to_data, hm, hsh]
      · simp [imsic_map_hartid_to_data, hm]
  exact ⟨hmain, fun pa q => by rw [hmain], fun fa q => by rw [hmain]⟩

/-- Successful validation forces the bit-width/shift relations, with the
fifth relation in the 32-bit-wrapped form actually computed by the code
(`u32 tmp = group_index_bits + group_index_shift - 1`). -/
theorem imsic_data_check_relations_of_ok (xlen : Nat)
    (hx : xlen = 32 ∨ xlen = 64) (d : imsic_data)
    (h0 : imsic_data_check xlen (some d) = 0) :
    d.guest_index_bits ≤ xlen - 12 ∧
    d.guest_index_bits + d.hart_index_bits ≤ xlen - 12 ∧
    d.guest_index_bits + d.hart_index_bits + d.group_index_bits ≤
      xlen - 12 ∧
    12 + d.guest_index_bits + d.hart_index_bits ≤ d.group_index_shift ∧
    (d.group_index_bits + d.group_index_shift - 1) % 2 ^ 32 < xlen := by
  simp only [imsic_data_check, IMSIC_MIN_ID, IMSIC_MAX_ID,
    IMSIC_MMIO_PAGE_SHIFT] at h0
  split_ifs at h0 with h1 h2 h3 h4 h5 h6 h7 h8
  all_goals try exact absurd h0 (by decide)
  rcases hx with hx | hx <;> subst hx <;>
    (simp only [u32sub] at h2 h3 h4 h6; norm_num at h2 h3 h4 h5 h6 ⊢) <;>
    omega

/-- C5 counterexample.  The claim as stated is false: this instance
violates `group_index_bits + group_index_shift ≤ WORD_BITS`
(`52 + 4294967246` is far above 64), yet `imsic_data_check` accepts it,
because the code computes `group_index_bits + group_index_shift - 1` in a
32-bit `tmp` which wraps to `1 < 64`. -/
theorem imsic_data_check_group_shift_wrap_cex :
    imsic_data_check 64
        (some ⟨true, 0, 0, 52, 4294967246, 63, [⟨0x1000, 0x1000⟩]⟩) = 0 ∧
      ¬((⟨true, 0, 0, 52, 4294967246, 63,
            [⟨0x1000, 0x1000⟩]⟩ : imsic_data).group_index_bits +
          (⟨true, 0, 0, 52, 4294967246, 63,
            [⟨0x1000, 0x1000⟩]⟩ : imsic_data).group_index_shift ≤ 64) :=
  ⟨by decide, by decide⟩

/-- C5 (amended).  Topology validation succeeds only when the first four
bit-width/shift relations hold together with the fifth relation as the
code actually computes it — `(group_index_bits + group_index_shift − 1)
mod 2^32 < WORD_BITS`, i.e. `group_index_bits + group_index_shift ≤
WORD_BITS` unless the 32-bit intermediate wraps (which requires the sum
to exceed `2^32`); and any instance violating one of these (wrapped)
relations is rejected with the invalid-configuration error. -/
theorem imsic_data_check_bit_relations (xlen : Nat)
    (hx : xlen = 32 ∨ xlen = 64) (d : imsic_data) :
    (imsic_data_check xlen (some d) = 0 →
      d.guest_index_bits ≤ xlen - 12 ∧
      d.guest_index_bits + d.hart_index_bits ≤ xlen - 12 ∧
      d.guest_index_bits + d.hart_index_bits + d.group_index_bits ≤
        xlen - 12 ∧
      12 + d.guest_index_bits + d.hart_index_bits ≤
        d.group_index_shift ∧
      (d.group_index_bits + d.group_index_shift - 1) % 2 ^ 32 < xlen) ∧
    (¬(d.guest_index_bits ≤ xlen - 12 ∧
        d.guest_index_bits + d.hart_index_bits ≤ xlen - 12 ∧
        d.guest_index_bits + d.hart_index_bits + d.group_index_bits ≤
          xlen - 12 ∧
        12 + d.guest_index_bits + d.hart_index_bits ≤
          d.group_index_shift ∧
        (d.group_index_bits + d.group_index_shift - 1) % 2 ^ 32 < xlen) →
      imsic_data_check xlen (some d) = SBI_EINVAL) :=
  ⟨imsic_data_check_relations_of_ok xlen hx d, fun hviol => by
    rcases imsic_data_check_cases xlen (some d) with h | h
    · exact absurd (imsic_data_check_relations_of_ok xlen hx d h) hviol
    · exact h⟩

/-- Witness for C5 (amended): on the canonical rv64 instance the
validator succeeds and the theorem yields all five relations. -/
theorem imsic_data_check_bit_relations_witness :
    ((64 : Nat) = 32 ∨ (64 : Nat) = 64) ∧
      ((0 : Nat) ≤ 64 - 12 ∧ (0 : Nat) + 0 ≤ 64 - 12 ∧
        (0 : Nat) + 0 + 0 ≤ 64 - 12 ∧ (12 : Nat) + 0 + 0 ≤ 24 ∧
        ((0 : Nat) + 24 - 1) % 2 ^ 32 < 64) :=
  ⟨Or.inr rfl,
    (imsic_data_check_bit_relations 64 (Or.inr rfl)
        ⟨true, 0, 0, 0, 24, 63, [⟨0, 4096⟩]⟩).1 (by decide)⟩

/-- C9 counterexample.  The claim as stated (coverage for every
`base_id` and `count`) is false on the code: the C computation
`unsigned long last_id = base_id + num_id` wraps mod `2 ^ XLEN`.  On
rv32 with `base_id = 2^32 - 2` and `count = 4` the sum wraps to
`last_id = 2 ≤ base_id`, the loop body never runs, zero accesses are
issued, and the in-range identity `base_id` itself is covered by zero
issued masks instead of exactly one. -/
theorem imsic_local_eix_update_wrap_cex :
    imsic_local_eix_update 5 4294967294 4 false true = [] ∧
      (4294967294 ≤ 4294967294 ∧ 4294967294 < 4294967294 + 4) ∧
      (imsic_local_eix_update 5 4294967294 4 false true).countP
          (eixCovers 5 false 4294967294) = 0 := by
  have h : imsic_local_eix_update 5 4294967294 4 false true = [] := by
    rw [imsic_local_eix_update]
    exact eixGo_nil _ _ _ _ _ (by norm_num)
  exact ⟨h, by norm_num, by rw [h]; rfl⟩

/-- C9 (amended).  Frame property of the batch update, for every call
whose identity range does not overflow the native unsigned word
(`base_id + num_id < 2 ^ XLEN`; when the sum wraps, as in the
counterexample, `last_id` wraps to at most `base_id` and the update
issues zero accesses): over all interrupt identities `n`, the accesses
issued by `imsic_local_eix_update(base_id, num_id)` cover exactly the
identities in `[base_id, base_id + num_id)` — each in-range identity's
(register, bit) position appears in exactly one issued mask and every
out-of-range identity in none (first conjunct, a count of 1 vs 0) — and
every issued mask is nonzero and confined to one native word (second
conjunct).  `__riscv_xlen = 2 ^ xk ≥ 32`. -/
theorem imsic_local_eix_update_coverage (xk : Nat) (hxk : 5 ≤ xk)
    (base_id num_id : Nat) (pend val : Bool)
    (hrange : base_id + num_id < 2 ^ 2 ^ xk) :
    (∀ n : Nat,
      (imsic_local_eix_update xk base_id num_id pend val).countP
          (eixCovers xk pend n) =
        if base_id ≤ n ∧ n < base_id + num_id then 1 else 0) ∧
    (∀ a ∈ imsic_local_eix_update xk base_id num_id pend val,
      a.mask ≠ 0 ∧ a.mask < 2 ^ 2 ^ xk) := by
  have hmod : (base_id + num_id) % 2 ^ 2 ^ xk = base_id + num_id :=
    Nat.mod_eq_of_lt hrange
  constructor
  · intro n
    rw [imsic_local_eix_update, hmod]
    exact eixGo_countP xk hxk pend val (base_id + num_id)
      (base_id + num_id - base_id) base_id (le_refl _) n
  · intro a ha
    rw [imsic_local_eix_update, hmod] at ha
    exact eixGo_mask_bounds xk pend val (base_id + num_id)
      (base_id + num_id - base_id) base_id (le_refl _) a ha

/-- Witness for C9 (amended): the rv32 update of identities 62..64
(sum well below `2^32`), probed at the in-range identity 62 and the
out-of-range identity 65. -/
theorem imsic_local_eix_update_coverage_witness :
    (5 ≤ 5) ∧ (62 + 3 < 2 ^ 2 ^ 5) ∧
      ((imsic_local_eix_update 5 62 3 false true).countP
          (eixCovers 5 false 62) =
        if 62 ≤ 62 ∧ 62 < 62 + 3 then 1 else 0) ∧
      ((imsic_local_eix_update 5 62 3 false true).countP
          (eixCovers 5 false 65) =
        if 62 ≤ 65 ∧ 65 < 62 + 3 then 1 else 0) :=
  ⟨by decide, by norm_num,
    (imsic_local_eix_update_coverage 5 (by decide) 62 3 false true
        (by norm_num)).1 62,
    (imsic_local_eix_update_coverage 5 (by decide) 62 3 false true
        (by norm_num)).1 65⟩

/-- C10.  The window walk of `imsic_ipi_send` is safe: on a window list
containing a zero-size terminating entry the (always-terminating) walk
never runs off the list (first conjunct); whenever the walk stops at a
window of nonzero size, the residual offset is strictly below that
window's size, i.e. the second conjunct of the C guard
`regs->size && reloff < regs->size` is forced by the loop exit condition
(second conjunct); and every doorbell write `imsic_ipi_send` actually
issues lands at `w.addr + reloff'` with `reloff' < w.size`, inside the
selected window (third conjunct). -/
theorem windowWalk_safe :
    (∀ (ws : List imsic_regs) (reloff : Nat),
      (∃ w ∈ ws, w.size = 0) → (windowWalk ws reloff).1 ≠ []) ∧
    (∀ (ws : List imsic_regs) (reloff : Nat) (w : imsic_regs)
        (rest : List imsic_regs) (reloff' : Nat),
      windowWalk ws reloff = (w :: rest, reloff') → w.size ≠ 0 →
      reloff' < w.size) ∧
    (∀ (d : imsic_data) (file addr v : Nat),
      imsic_ipi_send (some d) file = some (addr, v) →
      ∃ w rest reloff',
        windowWalk d.regs
            (file * (1 <<< d.guest_index_bits) * IMSIC_MMIO_PAGE_SZ) =
          (w :: rest, reloff') ∧
        w.size ≠ 0 ∧ reloff' < w.size ∧
        addr = w.addr + reloff' + IMSIC_MMIO_PAGE_LE ∧
        v = IMSIC_IPI_ID) := by
  refine ⟨?_, ?_, ?_⟩
  · intro ws
    induction ws with
    | nil =>
      intro r h
      simp at h
    | cons a tail ih =>
      intro r h
      simp only [windowWalk]
      split_ifs with hc
      · rcases h with ⟨w, hw, hw0⟩
        rcases List.mem_cons.1 hw with rfl | hw
        · exact absurd hw0 hc.1
        · exact ih _ ⟨w, hw, hw0⟩
      · simp
  · intro ws
    induction ws with
    | nil =>
      intro r w rest r' heq
      simp [windowWalk] at heq
    | cons a tail ih =>
      intro r w rest r' heq hsz
      simp only [windowWalk] at heq
      split_ifs at heq with hc
      · exact ih _ w rest r' heq hsz
      · rw [Prod.mk.injEq, List.cons.injEq] at heq
        obtain ⟨⟨haw, -⟩, hrr⟩ := heq
        subst haw
        subst hrr
        push_neg at hc
        exact hc hsz
  · intro d file addr v heq
    simp only [imsic_ipi_send] at heq
    split_ifs at heq with hm
    rcases hwalk : windowWalk d.regs
        (file * (1 <<< d.guest_index_bits) * IMSIC_MMIO_PAGE_SZ) with
      ⟨ws', r'⟩
    rw [hwalk] at heq
    cases ws' with
    | nil => exact absurd heq (by simp)
    | cons w rest =>
      dsimp only at heq
      split_ifs at heq with hg
      rw [Option.some.injEq, Prod.mk.injEq] at heq
      exact ⟨w, rest, r', rfl, hg.1, hg.2, heq.1.symm, heq.2.symm⟩

/-- Witness for C10: a zero-terminated two-entry window list with an
offset inside the first window: the walk stops on a nonempty cursor and
the residual offset 100 is below the window size 4096. -/
theorem windowWalk_safe_witness :
    (windowWalk [(⟨0xA000, 4096⟩ : imsic_regs), ⟨0, 0⟩] 100).1 ≠ [] ∧
      (100 : Nat) < 4096 :=
  ⟨windowWalk_safe.1 [⟨0xA000, 4096⟩, ⟨0, 0⟩] 100
      ⟨⟨0, 0⟩, by simp, rfl⟩,
    windowWalk_safe.2.1 [⟨0xA000, 4096⟩, ⟨0, 0⟩] 100 ⟨0xA000, 4096⟩
      [⟨0, 0⟩] 100 (by simp [windowWalk]) (by decide)⟩
